import Mathlib

/-!
Verification of `fastapi_user_auth` (files `fastapi_user_auth/utils.py` and
`fastapi_user_auth/mixins/admin.py`) against its natural-language
specification.

Python strings are embedded as `List Char` (named `Str`); Python lists as
`List`; Python sets and the Casbin policy stores as `Finset`.  Each Lean
definition carries the name of the Python function it translates.
-/

/-- Python `str` is embedded as a list of characters. -/
abbrev Str := List Char

/-- Conversion from a Lean string literal to the embedding of a Python string. -/
def str (s : String) : Str := s.toList

/-- Translation of `casbin_permission_encode` (utils.py lines 147-152):
joins the field values with `'#'`, right-padding with empty strings up to
five values when fewer are supplied. -/
def casbin_permission_encode (field_values : List Str) : Str :=
  let values :=
    if field_values.length < 5 then
      field_values ++ List.replicate (5 - field_values.length) ([] : Str)
    else field_values
  List.intercalate [ '#' ] values

/-- Translation of `casbin_permission_decode` (utils.py lines 156-162):
splits on `'#'` and, when fewer than five segments result, right-pads with
empty strings up to five. -/
def casbin_permission_decode (permission : Str) : List Str :=
  let field_values := permission.splitOn '#'
  if field_values.length < 5 then
    field_values ++ List.replicate (5 - field_values.length) ([] : Str)
  else field_values

/-- Translation of `encode_admin_action` (utils.py lines 13-25).  The
variable is spelled `perfix` in the source. -/
def encode_admin_action (action : String) : String :=
  let perfix := "admin:"
  if action ∈ ["page"] then perfix ++ action
  else
    let perfix := perfix ++ "page:"
    if action ∈ ["list", "update", "bulk_update", "create", "bulk_create", "read", "submit"]
    then perfix ++ action
    else
      let perfix := perfix ++ "action:"
      perfix ++ action


/-- Model of the external Casbin enforcer's state, as consumed by this
repository: the `p` policy store is a set of rules (each rule a full tuple
whose head is the subject), the `g` grouping store is a set of
(user, role) pairs, and `get_implicit_permissions_for_user` is kept
abstract as a function of the subject, since the implicit-resolution
algorithm lives entirely inside the external engine. -/
@[ext]
structure Enforcer where
  policies : Finset (List Str)
  grouping : Finset (Str × Str)
  implicit_fn : Str → Finset (List Str)

/-- Translation of `casbin_get_subject_permissions` (utils.py lines
165-171): fetches the subject's rules (implicit ones from the engine, or
the direct rules whose head is the subject) and encodes each rule minus
its subject column.  The Python function returns a list; every use in the
repository is order-independent (set equality in the spec, membership in
`get_admin_action_options_by_subject`), so the embedding returns the set
of encoded permissions. -/
def casbin_get_subject_permissions (enforcer : Enforcer) (subject : Str) (implicit : Bool) :
    Finset Str :=
  let permissions :=
    if implicit then enforcer.implicit_fn subject
    else enforcer.policies.filter (fun r => r.head? = some subject)
  permissions.image (fun permission => casbin_permission_encode (permission.drop 1))

/-- Translation of `casbin_update_subject_roles` (utils.py lines 174-189):
builds the target set of `(subject, "r:" + role)` pairs from the non-empty
comma-separated segments of `role_keys`, deletes all existing role
memberships of the subject (`delete_roles_for_user`), then adds the target
set when it is non-empty (`add_grouping_policies`). -/
def new_roles_of (subject role_keys : Str) : Finset (Str × Str) :=
  (((role_keys.splitOn ',').filter (fun role => !role.isEmpty)).map
    (fun role => (subject, str "r:" ++ role))).toFinset

/-- Translation continued: the body of `casbin_update_subject_roles`
with `new_roles` as above. -/
def casbin_update_subject_roles (enforcer : Enforcer) (subject : Str) (role_keys : Str) :
    Enforcer :=
  let new_roles := new_roles_of subject role_keys
  let grouping := enforcer.grouping.filter (fun g => ¬g.1 = subject)
  let grouping := if new_roles ≠ ∅ then grouping ∪ new_roles else grouping
  { enforcer with grouping := grouping }

/-- Translation of `casbin_update_subject_permissions` (utils.py lines
192-209): reads the subject's current direct rules, decodes each target
permission into a rule `(subject, *decoded)`, removes the rules that are
no longer wanted, adds the missing ones, and returns the input list. -/
def casbin_update_subject_permissions (enforcer : Enforcer) (subject : Str)
    (permissions : List Str) : List Str × Enforcer :=
  let old_rules := enforcer.policies.filter (fun r => r.head? = some subject)
  let new_rules :=
    (permissions.map (fun permission => subject :: casbin_permission_decode permission)).toFinset
  let remove_rules := old_rules \ new_rules
  let add_rules := new_rules \ old_rules
  (permissions, { enforcer with policies := (enforcer.policies \ remove_rules) ∪ add_rules })

/-- Embedding of the option dictionaries built by `get_admin_action_options`
(utils.py lines 39-58): `label`, `value`, an optional `sort` weight (the
`"sort"` key is only present on top-level items, and its value may be
`None`), and an optional `children` list (`none` models a dict without the
`"children"` key). -/
inductive OptNode : Type where
  | mk (label : Str) (value : Str) (sort : Option Int) (children : Option (List OptNode)) :
      OptNode

/-- Projection of the `"value"` entry of an option dict. -/
def OptNode.value : OptNode → Str
  | .mk _ v _ _ => v

/-- Projection of the `"sort"` entry of an option dict. -/
def OptNode.sortWeight : OptNode → Option Int
  | .mk _ _ s _ => s

/-- Projection of the `"children"` entry of an option dict. -/
def OptNode.children : OptNode → Option (List OptNode)
  | .mk _ _ _ c => c

/-- Translation of `filter_options` (utils.py lines 65-74): walks the list;
an option failing `filter_func` is skipped outright (its children are never
visited); an option passing it has its `children` entry replaced by the
recursively filtered children whenever that entry is present and non-empty
(the Python truthiness test `option.get("children")`), and is kept. -/
def filter_options (filter_func : OptNode → Bool) : List OptNode → List OptNode
  | [] => []
  | .mk l v s c :: rest =>
    if filter_func (.mk l v s c) then
      (match c with
        | some cs =>
          if cs.isEmpty then OptNode.mk l v s (some cs)
          else OptNode.mk l v s (some (filter_options filter_func cs))
        | none => OptNode.mk l v s none) :: filter_options filter_func rest
    else
      filter_options filter_func rest

/-- Contents of a cached top-level options list after `filter_options` has
run over it: `filter_options` keeps every dict in the traversed list alive
in its caller's structure, but reassigns the `children` entry of each
option that passes `filter_func` (utils.py line 72) in place, so the list
object itself still holds all its nodes while surviving nodes' children
have been narrowed to `filter_options` of the original children.  Options
failing `filter_func` are skipped before the recursion, so their subtrees
are untouched. -/
def mutate_options (filter_func : OptNode → Bool) : List OptNode → List OptNode
  | [] => []
  | .mk l v s c :: rest =>
    (if filter_func (.mk l v s c) then
      match c with
      | some cs =>
        if cs.isEmpty then OptNode.mk l v s (some cs)
        else OptNode.mk l v s (some (filter_options filter_func cs))
      | none => OptNode.mk l v s none
     else OptNode.mk l v s c) :: mutate_options filter_func rest

/-- Embedding of `admin.page_schema` attributes used by
`get_admin_action_options`: the display `label` and the `sort` weight
(which may be `None`, handled by `p["sort"] or 0` at utils.py line 61). -/
structure PageSchema where
  label : Str
  sort : Option Int

/-- Embedding of the admin-node kinds `get_admin_action_options`
distinguishes by `isinstance` (utils.py lines 44-58): `ModelAdmin`,
`FormAdmin` (both `BaseActionAdmin`s, carrying `registered_admin_actions`
as an insertion-ordered name-to-label mapping), plain `PageSchemaAdmin`
pages, and `AdminGroup`s with child admins.  A node whose `page_schema`
is `None` is skipped by the options builder. -/
inductive AdminT : Type where
  | modelAdmin (unique_id : Str) (page_schema : Option PageSchema)
      (registered_admin_actions : List (Str × Str)) : AdminT
  | formAdmin (unique_id : Str) (page_schema : Option PageSchema)
      (registered_admin_actions : List (Str × Str)) : AdminT
  | pageAdmin (unique_id : Str) (page_schema : Option PageSchema) : AdminT
  | adminGroup (unique_id : Str) (page_schema : Option PageSchema)
      (children : List AdminT) : AdminT

/-- Child options appended for `admin.registered_admin_actions.values()`
(utils.py lines 50-56): one option per registered action, with value
`casbin_permission_encode(admin.unique_id, "admin:" + action.name)`. -/
def action_option_nodes (uid : Str) (actions : List (Str × Str)) : List OptNode :=
  actions.map (fun a => OptNode.mk a.2 (casbin_permission_encode [uid, str "admin:" ++ a.1])
    none none)

/-- Model of `options.sort(key=lambda p: p["sort"] or 0, reverse=True)`
(utils.py line 61): a stable sort, descending on the sort weight with
`None` read as 0.  Implemented as a stable insertion sort, which agrees
extensionally with Python's stable Timsort. -/
def insert_sorted_desc (o : OptNode) : List OptNode → List OptNode
  | [] => [o]
  | p :: rest =>
    if (p.sortWeight.getD 0) < (o.sortWeight.getD 0) then o :: p :: rest
    else p :: insert_sorted_desc o rest

/-- Descending stable sort over a whole options list; see
`insert_sorted_desc`. -/
def sort_options_desc (l : List OptNode) : List OptNode :=
  l.foldr insert_sorted_desc []

mutual

/-- Translation of `get_admin_action_options` (utils.py lines 28-62),
ignoring its `lru_cache` (modelled separately by
`get_admin_action_options_cached`): iterates the group's children,
emitting one option per admin that has a page schema, with action children
for model/form admins and recursive options for sub-groups, then sorts the
top level descending by sort weight.  Iterating anything other than an
`AdminGroup` does not occur in the source and yields no options. -/
def get_admin_action_options (group : AdminT) : List OptNode :=
  match group with
  | .adminGroup _ _ children => sort_options_desc (admin_page_options children)
  | _ => []

/-- Loop body of `get_admin_action_options` (utils.py lines 34-59): one
option dict per admin with a page schema. -/
def admin_page_options : List AdminT → List OptNode
  | [] => []
  | .modelAdmin uid ps actions :: rest =>
    (match ps with
      | none => []
      | some ps =>
        [OptNode.mk ps.label (casbin_permission_encode [uid, str "admin:page"]) ps.sort
          (some (OptNode.mk (str "查看列表") (casbin_permission_encode [uid, str "admin:list"])
              none none :: action_option_nodes uid actions))]) ++ admin_page_options rest
  | .formAdmin uid ps actions :: rest =>
    (match ps with
      | none => []
      | some ps =>
        [OptNode.mk ps.label (casbin_permission_encode [uid, str "admin:page"]) ps.sort
          (some ((if (actions.map Prod.fst).contains (str "submit") then []
              else [OptNode.mk (str "提交") (casbin_permission_encode [uid, str "admin:submit"])
                none none]) ++ action_option_nodes uid actions))]) ++ admin_page_options rest
  | .pageAdmin uid ps :: rest =>
    (match ps with
      | none => []
      | some ps =>
        [OptNode.mk ps.label (casbin_permission_encode [uid, str "admin:page"]) ps.sort
          none]) ++ admin_page_options rest
  | .adminGroup uid ps children :: rest =>
    (match ps with
      | none => []
      | some ps =>
        [OptNode.mk ps.label (casbin_permission_encode [uid, str "admin:page"]) ps.sort
          (some (get_admin_action_options (.adminGroup uid (some ps) children)))]) ++
      admin_page_options rest

end

namespace SystemUserEnum

/-- Modelled from the spec: the root system-user identifier
(`SystemUserEnum.ROOT` from `fastapi_user_auth.auth.schemas`, a repository
module not included under `src/`); the glossary describes subjects as
identity strings prefixed `u:`, and the root subject as `"u:" +` this
identifier. -/
def ROOT : Str := str "root"

end SystemUserEnum

/-- Translation of `get_admin_action_options_by_subject` (utils.py lines
130-143), value semantics (a fresh `get_admin_action_options` cache; the
cache interaction is modelled separately): builds the full option tree,
and for every subject other than `"u:" + SystemUserEnum.ROOT` filters it
by membership of the option's value in the subject's implicit permission
set. -/
def get_admin_action_options_by_subject (enforcer : Enforcer) (subject : Str)
    (group : AdminT) : List OptNode :=
  let options := get_admin_action_options group
  if subject ≠ str "u:" ++ SystemUserEnum.ROOT then
    let permissions := casbin_get_subject_permissions enforcer subject true
    filter_options (fun item => decide (item.value ∈ permissions)) options
  else options

/-- Model of the `lru_cache` on `get_admin_action_options` (utils.py line
28) for a fixed group argument: the cache state is `none` before the first
call and `some opts` afterwards, and a hit returns the cached list object
itself. -/
def get_admin_action_options_cached (group : AdminT) (cache : Option (List OptNode)) :
    List OptNode × Option (List OptNode) :=
  match cache with
  | some opts => (opts, some opts)
  | none => (get_admin_action_options group, some (get_admin_action_options group))

/-- Translation of `get_admin_action_options_by_subject` threading the
`lru_cache` state of `get_admin_action_options`: for a non-root subject,
`filter_options` runs directly on the cached list's nodes, so the returned
value is the filtered tree while the cache is left holding the in-place
mutated list described by `mutate_options`. -/
def get_admin_action_options_by_subject_cached (enforcer : Enforcer) (subject : Str)
    (group : AdminT) (cache : Option (List OptNode)) :
    List OptNode × Option (List OptNode) :=
  let r := get_admin_action_options_cached group cache
  if subject ≠ str "u:" ++ SystemUserEnum.ROOT then
    let permissions := casbin_get_subject_permissions enforcer subject true
    let f := fun item => decide (item.value ∈ permissions)
    (filter_options f r.1, some (mutate_options f r.1))
  else r

/-- Embedding of the `AuthModelAdmin` instance state relevant to
`get_deny_fields` (mixins/admin.py lines 92-191): the admin's `unique_id`
and the keys of the five cached `xxx_permission_fields` dictionaries
(`cached_property`s, immutable after the instance exists, so plain
fields here). -/
structure AuthModelAdminT where
  unique_id : String
  list_permission_fields : List String
  filter_permission_fields : List String
  create_permission_fields : List String
  update_permission_fields : List String
  read_permission_fields : List String

/-- Dispatch on `action` inside `get_deny_fields` (mixins/admin.py lines
174-186): the candidate field keys for the five recognized actions, and
the empty set for anything else (the bare `else: pass` branch). -/
def check_fields_of (a : AuthModelAdminT) (action : String) : List String :=
  if action = "list" then a.list_permission_fields
  else if action = "filter" then a.filter_permission_fields
  else if action = "create" then a.create_permission_fields
  else if action = "update" then a.update_permission_fields
  else if action = "read" then a.read_permission_fields
  else []

/-- Translation of `AuthModelAdmin.has_field_permission` (mixins/admin.py
lines 162-166): resolves the current subject (already folded into the
`subject` argument, with the guest fallback applied) and asks the policy
engine — modelled as the function argument `enforce`, since enforcement
happens inside the external Casbin matcher — to enforce
`("u:" + subject, unique_id, "page:{action}:{field}", "page:{action}")`. -/
def has_field_permission (enforce : String → String → String → String → Bool)
    (subject : String) (a : AuthModelAdminT) (field : String) (action : String) : Bool :=
  enforce ("u:" ++ subject) a.unique_id ("page:" ++ action ++ ":" ++ field)
    ("page:" ++ action)

/-- Embedding of `request.scope` as used by `get_deny_fields`: a mapping
from cache keys (`f"{unique_id}_exclude_fields"`) to per-action caches,
each mapping an action to the deny-field set computed for it (the Python
`set` is kept as the list of fields in check order; all uses are
membership/equality of contents). -/
abbrev RequestScope := List (String × List (String × List String))

/-- Setting `scope[key] = cache`: replaces the binding when present, adds
it otherwise.  This also models the Python aliasing in `get_deny_fields`:
when the key is already present, `request_cache` aliases the stored dict,
so `request_cache[action] = fields` updates the stored dict in place even
though the code skips the explicit store. -/
def scope_set (s : RequestScope) (key : String) (cache : List (String × List String)) :
    RequestScope :=
  match s with
  | [] => [(key, cache)]
  | (k, v) :: rest => if k = key then (key, cache) :: rest else (k, v) :: scope_set rest key cache

/-- Translation of `AuthModelAdmin.get_deny_fields` (mixins/admin.py lines
168-191): reads the request-scoped cache for this admin, returns the
cached set when the action key is present, otherwise filters the
candidate fields by `has_field_permission`, records the result under the
action key and stores the cache back into the request scope.  Returns the
deny set together with the updated request scope. -/
def get_deny_fields (a : AuthModelAdminT) (enforce : String → String → String → String → Bool)
    (subject : String) (scope : RequestScope) (action : String) :
    List String × RequestScope :=
  let cache_key := a.unique_id ++ "_exclude_fields"
  let request_cache := (scope.lookup cache_key).getD []
  match request_cache.lookup action with
  | some fields => (fields, scope)
  | none =>
    let check_fields := check_fields_of a action
    let fields := check_fields.filter
      (fun field => !(has_field_permission enforce subject a field action))
    (fields, scope_set scope cache_key ((action, fields) :: request_cache))

/-! ## Theorems -/

/-- C3: for any five strings none of which contains the `'#'` character,
decoding the encoding is the identity:
`casbin_permission_decode (casbin_permission_encode a b c d e) = [a, b, c, d, e]`. -/
theorem C3_decode_encode_roundtrip (a b c d e : Str)
    (ha : '#' ∉ a) (hb : '#' ∉ b) (hc : '#' ∉ c) (hd : '#' ∉ d) (he : '#' ∉ e) :
    casbin_permission_decode (casbin_permission_encode [a, b, c, d, e]) = [a, b, c, d, e] := by
  have hx : ∀ l ∈ [a, b, c, d, e], '#' ∉ l := by
    intro l hl
    simp only [List.mem_cons, List.not_mem_nil, or_false] at hl
    rcases hl with rfl | rfl | rfl | rfl | rfl <;> assumption
  have hsplit : (List.intercalate [ '#' ] [a, b, c, d, e]).splitOn '#' = [a, b, c, d, e] :=
    List.splitOn_intercalate [a, b, c, d, e] '#' hx (by simp)
  have henc : casbin_permission_encode [a, b, c, d, e] =
      List.intercalate [ '#' ] [a, b, c, d, e] := by
    simp [casbin_permission_encode]
  rw [henc]
  simp [casbin_permission_decode, hsplit]

/-- C3 witness: the round-trip theorem instantiated at five concrete
hash-free strings. -/
theorem C3_witness :
    casbin_permission_decode (casbin_permission_encode
        [str "u:admin", str "page1", str "f", str "act", str "v5"]) =
      [str "u:admin", str "page1", str "f", str "act", str "v5"] :=
  C3_decode_encode_roundtrip _ _ _ _ _ (by decide) (by decide) (by decide) (by decide)
    (by decide)

/-- C4: `encode_admin_action` is total with exactly three output shapes:
`"page"` maps to `"admin:page"`, the seven built-in verbs map to
`"admin:page:" + action`, and every other string maps to
`"admin:page:action:" + action`. -/
theorem C4_encode_admin_action_shapes (action : String) :
    (action = "page" → encode_admin_action action = "admin:page") ∧
    (action ∈ ["list", "update", "bulk_update", "create", "bulk_create", "read", "submit"] →
      encode_admin_action action = "admin:page:" ++ action) ∧
    (action ≠ "page" →
      action ∉ ["list", "update", "bulk_update", "create", "bulk_create", "read", "submit"] →
      encode_admin_action action = "admin:page:action:" ++ action) := by
  refine ⟨?_, ?_, ?_⟩
  · rintro rfl; rfl
  · intro h
    fin_cases h <;> rfl
  · intro h1 h2
    have hp : action ∉ ["page"] := by simpa using h1
    simp only [encode_admin_action, if_neg hp, if_neg h2]
    have : "admin:" ++ "page:" ++ "action:" = "admin:page:action:" := rfl
    rw [← this]

/-- C4 witness: the shape theorem instantiated at the built-in verb
`"list"`, discharging the membership hypothesis. -/
theorem C4_witness : encode_admin_action "list" = "admin:page:list" :=
  (C4_encode_admin_action_shapes "list").2.1 (by decide)

/-- C8 counterexample: the claim says decoding always returns exactly five
segments, but an input with five `'#'` delimiters decodes to six segments
(the source never truncates). -/
theorem C8_counterexample :
    (casbin_permission_decode (str "a#b#c#d#e#f")).length ≠ 5 := by decide

/-- C8 amended: `casbin_permission_decode` never fails and returns at
least five segments: it splits on `'#'` and right-pads the result with
empty strings up to five; when the split already yields five or more
segments they are returned unchanged (so the count can exceed five). -/
theorem C8_decode_pads_to_five (s : Str) :
    casbin_permission_decode s =
      s.splitOn '#' ++ List.replicate (5 - (s.splitOn '#').length) ([] : Str) ∧
    5 ≤ (casbin_permission_decode s).length := by
  have h : casbin_permission_decode s =
      s.splitOn '#' ++ List.replicate (5 - (s.splitOn '#').length) ([] : Str) := by
    simp only [casbin_permission_decode]
    split
    · rfl
    · next hlen =>
      have : 5 - (s.splitOn '#').length = 0 := by omega
      simp [this]
  refine ⟨h, ?_⟩
  rw [h]
  simp only [List.length_append, List.length_replicate]
  omega

/-- Replacing a subject's slice of a set by remove-difference /
add-difference leaves exactly the new slice, provided every new element
belongs to the slice ('s predicate). -/
theorem filter_sdiff_union_replace {α : Type} [DecidableEq α] (s new : Finset α)
    (p : α → Prop) [DecidablePred p] (h : ∀ r ∈ new, p r) :
    ((s \ (s.filter p \ new)) ∪ (new \ s.filter p)).filter p = new := by
  ext r
  simp only [Finset.mem_filter, Finset.mem_union, Finset.mem_sdiff]
  have := h r
  tauto

/-- C5: after `casbin_update_subject_permissions enforcer subject P`, the
subject's direct policy rules are exactly the decoded tuples of `P`
(stale rules removed, missing rules added), a subsequent
`casbin_get_subject_permissions` yields exactly the canonical encoded
forms of `P` as a set, and the function returns the input list `P`
unchanged. -/
theorem C5_update_subject_permissions_replaces (enforcer : Enforcer) (subject : Str)
    (P : List Str) :
    (casbin_update_subject_permissions enforcer subject P).1 = P ∧
    (casbin_update_subject_permissions enforcer subject P).2.policies.filter
        (fun r => r.head? = some subject)
      = (P.map (fun p => subject :: casbin_permission_decode p)).toFinset ∧
    casbin_get_subject_permissions
        (casbin_update_subject_permissions enforcer subject P).2 subject false
      = (P.map (fun p =>
          casbin_permission_encode (casbin_permission_decode p))).toFinset := by
  have hmem : ∀ r ∈ (P.map (fun p => subject :: casbin_permission_decode p)).toFinset,
      r.head? = some subject := by
    intro r hr
    simp only [List.mem_toFinset, List.mem_map] at hr
    obtain ⟨p, _, rfl⟩ := hr
    rfl
  have hfilter : (casbin_update_subject_permissions enforcer subject P).2.policies.filter
        (fun r => r.head? = some subject)
      = (P.map (fun p => subject :: casbin_permission_decode p)).toFinset :=
    filter_sdiff_union_replace enforcer.policies _ _ hmem
  refine ⟨rfl, hfilter, ?_⟩
  show ((casbin_update_subject_permissions enforcer subject P).2.policies.filter
      (fun r => r.head? = some subject)).image
      (fun permission => casbin_permission_encode (permission.drop 1)) = _
  rw [hfilter]
  ext x
  simp only [Finset.mem_image, List.mem_toFinset, List.mem_map]
  constructor
  · rintro ⟨r, ⟨p, hp, rfl⟩, rfl⟩
    exact ⟨p, hp, rfl⟩
  · rintro ⟨p, hp, rfl⟩
    exact ⟨subject :: casbin_permission_decode p, ⟨p, hp, rfl⟩, rfl⟩

/-- Every target role pair carries the updated subject in its first slot. -/
theorem new_roles_of_fst (subject role_keys : Str) :
    ∀ x ∈ new_roles_of subject role_keys, x.1 = subject := by
  intro x hx
  simp only [new_roles_of, List.mem_toFinset, List.mem_map] at hx
  obtain ⟨role, _, rfl⟩ := hx
  rfl

/-- Unfolding of the grouping store written by `casbin_update_subject_roles`. -/
theorem update_subject_roles_grouping (enforcer : Enforcer) (subject role_keys : Str) :
    (casbin_update_subject_roles enforcer subject role_keys).grouping
      = if new_roles_of subject role_keys ≠ ∅
        then enforcer.grouping.filter (fun g => ¬g.1 = subject) ∪
          new_roles_of subject role_keys
        else enforcer.grouping.filter (fun g => ¬g.1 = subject) := rfl

/-- Role memberships of the updated subject after
`casbin_update_subject_roles` are exactly the target set. -/
theorem update_subject_roles_filter (enforcer : Enforcer) (subject role_keys : Str) :
    (casbin_update_subject_roles enforcer subject role_keys).grouping.filter
        (fun g => g.1 = subject)
      = new_roles_of subject role_keys := by
  have hmem := new_roles_of_fst subject role_keys
  have hdrop : (enforcer.grouping.filter (fun g => ¬g.1 = subject)).filter
      (fun g => g.1 = subject) = ∅ := by
    ext x
    simp only [Finset.filter_filter, Finset.mem_filter, Finset.not_mem_empty, iff_false]
    tauto
  rw [update_subject_roles_grouping]
  split
  · rw [Finset.filter_union, hdrop, Finset.empty_union]
    exact Finset.filter_eq_self.mpr hmem
  · next h =>
    have hempty : new_roles_of subject role_keys = ∅ := not_ne_iff.mp h
    rw [hdrop, hempty]

/-- Rules of subjects other than the updated one are untouched by
`casbin_update_subject_roles`, and the freshly added slice is removed
again by filtering it away. -/
theorem update_subject_roles_filter_ne (enforcer : Enforcer) (subject role_keys : Str) :
    (casbin_update_subject_roles enforcer subject role_keys).grouping.filter
        (fun g => ¬g.1 = subject)
      = enforcer.grouping.filter (fun g => ¬g.1 = subject) := by
  have hmem := new_roles_of_fst subject role_keys
  have hdrop : (new_roles_of subject role_keys).filter (fun g => ¬g.1 = subject) = ∅ := by
    ext x
    simp only [Finset.mem_filter, Finset.not_mem_empty, iff_false, not_and]
    intro hx
    simpa using hmem x hx
  rw [update_subject_roles_grouping]
  split
  · rw [Finset.filter_union, hdrop, Finset.union_empty, Finset.filter_filter]
    simp only [and_self]
  · rw [Finset.filter_filter]
    simp only [and_self]

/-- C6: `casbin_update_subject_roles` deletes all of the subject's role
memberships and then adds `(subject, "r:" + role)` for each non-empty
comma-separated segment of `role_keys`: afterwards the subject's role
pairs are exactly that target set; with `role_keys = ""` the subject has
zero role memberships; with `role_keys = "a,b"` exactly the roles
`"r:a"` and `"r:b"`; and the update is idempotent. -/
theorem C6_update_subject_roles_replaces (enforcer : Enforcer) (subject role_keys : Str) :
    (casbin_update_subject_roles enforcer subject role_keys).grouping.filter
        (fun g => g.1 = subject)
      = (((role_keys.splitOn ',').filter (fun role => !role.isEmpty)).map
          (fun role => (subject, str "r:" ++ role))).toFinset ∧
    (casbin_update_subject_roles enforcer subject (str "")).grouping.filter
        (fun g => g.1 = subject) = ∅ ∧
    (casbin_update_subject_roles enforcer subject (str "a,b")).grouping.filter
        (fun g => g.1 = subject)
      = {(subject, str "r:a"), (subject, str "r:b")} ∧
    casbin_update_subject_roles (casbin_update_subject_roles enforcer subject role_keys)
        subject role_keys
      = casbin_update_subject_roles enforcer subject role_keys := by
  refine ⟨update_subject_roles_filter enforcer subject role_keys, ?_, ?_, ?_⟩
  · rw [update_subject_roles_filter]
    have : ((str "").splitOn ',').filter (fun role => !role.isEmpty) = [] := by decide
    simp [new_roles_of, this]
  · rw [update_subject_roles_filter]
    have hab : ((str "a,b").splitOn ',').filter (fun role => !role.isEmpty) =
        [str "a", str "b"] := by decide
    have ha : str "r:" ++ str "a" = str "r:a" := by decide
    have hb : str "r:" ++ str "b" = str "r:b" := by decide
    simp only [new_roles_of, hab, List.map_cons, List.map_nil, ha, hb]
    simp
  · have hgr : (casbin_update_subject_roles (casbin_update_subject_roles enforcer subject
        role_keys) subject role_keys).grouping
      = (casbin_update_subject_roles enforcer subject role_keys).grouping := by
      rw [update_subject_roles_grouping, update_subject_roles_filter_ne,
        ← update_subject_roles_grouping]
    exact Enforcer.ext rfl hgr rfl

/-- Looking up the key just written by `scope_set` returns the written
cache. -/
theorem lookup_scope_set (s : RequestScope) (key : String)
    (cache : List (String × List String)) :
    (scope_set s key cache).lookup key = some cache := by
  induction s with
  | nil => simp [scope_set, List.lookup]
  | cons head tail ih =>
    obtain ⟨k, v⟩ := head
    by_cases hk : k = key
    · simp [scope_set, hk, List.lookup]
    · have hbeq : (key == k) = false := by
        simp only [beq_eq_false_iff_ne, ne_eq]
        exact fun h => hk h.symm
      simp only [scope_set, if_neg hk, List.lookup, hbeq]
      exact ih

/-- C2: `get_deny_fields` is memoized per request and action: a second
call with the same action on the scope produced by the first call returns
the first call's deny set, even when the enforcement outcomes (and the
resolved subject) have changed in between; moreover a cached empty deny
set is returned as-is with the scope untouched — presence of the action
key, not truthiness of the stored set, suppresses recomputation. -/
theorem C2_get_deny_fields_memoized (a : AuthModelAdminT)
    (e1 e2 : String → String → String → String → Bool) (sub1 sub2 : String)
    (scope : RequestScope) (action : String) :
    (get_deny_fields a e2 sub2 (get_deny_fields a e1 sub1 scope action).2 action).1
      = (get_deny_fields a e1 sub1 scope action).1 ∧
    get_deny_fields a e2 sub2
        (scope_set scope (a.unique_id ++ "_exclude_fields") [(action, [])]) action
      = ([], scope_set scope (a.unique_id ++ "_exclude_fields") [(action, [])]) := by
  constructor
  · match h : (((scope.lookup (a.unique_id ++ "_exclude_fields")).getD []).lookup action) with
    | some fields =>
      have h1 : get_deny_fields a e1 sub1 scope action = (fields, scope) := by
        simp only [get_deny_fields, h]
      rw [h1]
      simp only [get_deny_fields, h]
    | none =>
      have h1 : (get_deny_fields a e1 sub1 scope action).2
          = scope_set scope (a.unique_id ++ "_exclude_fields")
            ((action, (get_deny_fields a e1 sub1 scope action).1) ::
              ((scope.lookup (a.unique_id ++ "_exclude_fields")).getD [])) := by
        simp only [get_deny_fields, h]
      rw [h1]
      simp only [get_deny_fields, lookup_scope_set, Option.getD_some, List.lookup,
        beq_self_eq_true, if_pos]
  · simp only [get_deny_fields, lookup_scope_set, Option.getD_some, List.lookup,
      beq_self_eq_true, if_pos]

/-- C9: for an action outside the five recognized ones that is not yet in
the request-scoped cache, `get_deny_fields` returns the empty set without
consulting the policy engine (the result holds for every `enforce`
function) and raises no error. -/
theorem C9_get_deny_fields_unknown_action (a : AuthModelAdminT)
    (enforce : String → String → String → String → Bool) (subject : String)
    (scope : RequestScope) (action : String)
    (h1 : action ∉ ["list", "filter", "create", "update", "read"])
    (h2 : (((scope.lookup (a.unique_id ++ "_exclude_fields")).getD []).lookup action)
      = none) :
    (get_deny_fields a enforce subject scope action).1 = [] := by
  simp only [List.mem_cons, List.not_mem_nil, or_false, not_or] at h1
  obtain ⟨n1, n2, n3, n4, n5⟩ := h1
  simp only [get_deny_fields, h2, check_fields_of, if_neg n1, if_neg n2, if_neg n3,
    if_neg n4, if_neg n5, List.filter_nil]

/-- C9 witness: a concrete admin with non-empty candidate sets for the
known actions, an empty request scope and the unknown action
`"bulk_delete"` yield the empty deny set. -/
theorem C9_witness :
    (get_deny_fields ⟨"admin1", ["f1"], ["f2"], ["f3"], ["f4"], ["f5"]⟩
      (fun _ _ _ _ => false) "guest" [] "bulk_delete").1 = [] :=
  C9_get_deny_fields_unknown_action ⟨"admin1", ["f1"], ["f2"], ["f3"], ["f4"], ["f5"]⟩
    (fun _ _ _ _ => false) "guest" [] "bulk_delete" (by decide) rfl

/-- C7: the root subject (`"u:" + SystemUserEnum.ROOT`) receives the full
permission-option tree of `get_admin_action_options` with no filtering
against the policy engine, whatever the engine's rules are; every other
subject receives that tree filtered by membership in their implicit
permission set. -/
theorem C7_root_subject_unfiltered (enforcer : Enforcer) (subject : Str) (group : AdminT) :
    (subject = str "u:" ++ SystemUserEnum.ROOT →
      get_admin_action_options_by_subject enforcer subject group
        = get_admin_action_options group) ∧
    (subject ≠ str "u:" ++ SystemUserEnum.ROOT →
      get_admin_action_options_by_subject enforcer subject group
        = filter_options
            (fun item => decide (item.value ∈
              casbin_get_subject_permissions enforcer subject true))
            (get_admin_action_options group)) := by
  constructor
  · intro h
    simp [get_admin_action_options_by_subject, h]
  · intro h
    simp [get_admin_action_options_by_subject, h]

/-- C7 witness: with a concrete enforcer and group, the root subject gets
exactly `get_admin_action_options`'s output. -/
theorem C7_witness :
    get_admin_action_options_by_subject ⟨∅, ∅, fun _ => ∅⟩
        (str "u:" ++ SystemUserEnum.ROOT) (AdminT.adminGroup (str "g") none [])
      = get_admin_action_options (AdminT.adminGroup (str "g") none []) :=
  (C7_root_subject_unfiltered ⟨∅, ∅, fun _ => ∅⟩ (str "u:" ++ SystemUserEnum.ROOT)
    (AdminT.adminGroup (str "g") none [])).1 rfl

/-- Membership predicate used in the C1 scenario: only the value `"l"` is
in the allowed set. -/
def allow_only_l : OptNode → Bool := fun o => decide (o.value ∈ [str "l"])

/-- Leaf of the C1 scenario, with the allowed value `"l"`. -/
def leaf_l : OptNode := .mk (str "L") (str "l") none none

/-- Parent of the C1 leaf, value `"p"` (not allowed). -/
def node_p : OptNode := .mk (str "P") (str "p") none (some [leaf_l])

/-- Grandparent of the C1 leaf, value `"g"` (not allowed). -/
def node_g : OptNode := .mk (str "G") (str "g") none (some [node_p])

/-- C1 counterexample: the leaf's value is allowed and its grandparent's
value is not, yet `filter_options` drops the grandparent — and with it the
whole path to the leaf — because the source skips a node failing the
filter before ever recursing into its children; the claim's promised
retention of the path fails at this input. -/
theorem C1_counterexample :
    allow_only_l leaf_l = true ∧ allow_only_l node_g = false ∧
    filter_options allow_only_l [node_g] = [] := by
  refine ⟨rfl, rfl, ?_⟩
  simp [filter_options, allow_only_l, node_g, node_p, leaf_l, OptNode.value, str]

mutual

/-- Deep check that every value in an option node's tree satisfies `f`. -/
def all_values_allowed (f : Str → Bool) : OptNode → Bool
  | .mk _ v _ none => f v
  | .mk _ v _ (some cs) => f v && all_values_allowed_list f cs

/-- Deep check over a list of option trees; see `all_values_allowed`. -/
def all_values_allowed_list (f : Str → Bool) : List OptNode → Bool
  | [] => true
  | o :: rest => all_values_allowed f o && all_values_allowed_list f rest

end

/-- Simp lemma for the `value` projection. -/
@[simp] theorem OptNode.value_mk (l v : Str) (s : Option Int) (c : Option (List OptNode)) :
    OptNode.value (.mk l v s c) = v := rfl

/-- Simp lemma for the `sortWeight` projection. -/
@[simp] theorem OptNode.sortWeight_mk (l v : Str) (s : Option Int)
    (c : Option (List OptNode)) : OptNode.sortWeight (.mk l v s c) = s := rfl

/-- Simp lemma for the `children` projection. -/
@[simp] theorem OptNode.children_mk (l v : Str) (s : Option Int)
    (c : Option (List OptNode)) : OptNode.children (.mk l v s c) = c := rfl

/-- Top-level survivors of `filter_options` under a value-based predicate
are exactly the options whose own value passes, in order. -/
theorem filter_options_map_value (f : Str → Bool) (opts : List OptNode) :
    (filter_options (fun o => f o.value) opts).map OptNode.value
      = (opts.map OptNode.value).filter f := by
  induction opts using filter_options.induct (fun o => f o.value) with
  | case1 => simp [filter_options]
  | case2 l v s c rest hf hc ih =>
    have hfv : f v = true := by simpa using hf
    cases c with
    | none => simp [filter_options, hf, hfv, ih]
    | some cs => by_cases hcs : cs.isEmpty <;> simp [filter_options, hf, hfv, hcs, ih]
  | case3 l v s c rest hf ih =>
    have hfv : ¬f v = true := by simpa using hf
    cases c with
    | none => simp [filter_options, hf, hfv, ih]
    | some cs => simp [filter_options, hf, hfv, ih]

/-- Every value remaining anywhere in the output of `filter_options`
under a value-based predicate is allowed. -/
theorem filter_options_all_allowed (f : Str → Bool) (opts : List OptNode) :
    all_values_allowed_list f (filter_options (fun o => f o.value) opts) = true := by
  induction opts using filter_options.induct (fun o => f o.value) with
  | case1 => simp [filter_options, all_values_allowed_list]
  | case2 l v s c rest hf hc ih =>
    have hfv : f v = true := by simpa using hf
    cases c with
    | none =>
      simp [filter_options, hf, all_values_allowed_list, all_values_allowed, hfv, ih]
    | some cs =>
      by_cases hcs : cs.isEmpty
      · have hnil : cs = [] := by simpa using hcs
        subst hnil
        simp [filter_options, hf, all_values_allowed_list, all_values_allowed, hfv, ih]
      · have hchild : all_values_allowed_list f (filter_options (fun o => f o.value) cs)
            = true := hc
        simp [filter_options, hf, hcs, all_values_allowed_list, all_values_allowed, hfv,
          ih, hchild]
  | case3 l v s c rest hf ih =>
    have hfv : ¬f v = true := by simpa using hf
    cases c with
    | none => simp [filter_options, hf, hfv, ih]
    | some cs => simp [filter_options, hf, hfv, ih]

/-- C1 amended: under the membership predicate over an allowed-value set,
`filter_options` keeps a node if and only if its own value is allowed
(given that its ancestors were kept): the surviving top-level values are
exactly the allowed ones in order, and every value remaining anywhere in
the filtered tree is allowed — descendants cannot save a node, so a node
whose value is not allowed is dropped together with its entire subtree,
even when it contains a leaf whose value is allowed. -/
theorem C1_filter_options_value_only (f : Str → Bool) (opts : List OptNode) :
    (filter_options (fun o => f o.value) opts).map OptNode.value
        = (opts.map OptNode.value).filter f ∧
    all_values_allowed_list f (filter_options (fun o => f o.value) opts) = true :=
  ⟨filter_options_map_value f opts, filter_options_all_allowed f opts⟩

/-- C10: `filter_options` mutates the nodes of the lru-cached options list
in place, so one `get_admin_action_options_by_subject` call for a non-root
subject leaves the process-wide cache holding the stripped tree
(`mutate_options` of the full tree, in which every surviving node's
children entry has been reassigned to the filtered sublist), and a later
call for the root subject — who should see the full tree — receives that
already-stripped cached tree instead. -/
theorem C10_filter_mutates_cached_tree (enf1 enf2 : Enforcer) (subject : Str)
    (group : AdminT) (h : subject ≠ str "u:" ++ SystemUserEnum.ROOT) :
    (get_admin_action_options_by_subject_cached enf1 subject group none).2
      = some (mutate_options
          (fun item => decide (item.value ∈
            casbin_get_subject_permissions enf1 subject true))
          (get_admin_action_options group)) ∧
    (get_admin_action_options_by_subject_cached enf2 (str "u:" ++ SystemUserEnum.ROOT)
        group (get_admin_action_options_by_subject_cached enf1 subject group none).2).1
      = mutate_options
          (fun item => decide (item.value ∈
            casbin_get_subject_permissions enf1 subject true))
          (get_admin_action_options group) := by
  constructor <;>
    simp [get_admin_action_options_by_subject_cached, get_admin_action_options_cached, h]

/-- Concrete admin group for the C10 witness: one model admin `"m"` with a
page schema and no extra registered actions. -/
def groupW : AdminT :=
  .adminGroup (str "g") none [.modelAdmin (str "m") (some ⟨str "M", none⟩) []]

/-- Concrete enforcer for the C10 witness: the subject `"u:alice"` holds
(implicitly) only the page permission of admin `"m"`, not its list
permission. -/
def enfW : Enforcer :=
  ⟨∅, ∅, fun _ => {[str "u:alice", str "m", str "admin:page"]}⟩

/-- Filter predicate `get_admin_action_options_by_subject` uses for
`"u:alice"` against `enfW`. -/
def predW : OptNode → Bool :=
  fun item => decide (item.value ∈ casbin_get_subject_permissions enfW (str "u:alice") true)

/-- Implicit permission set of `"u:alice"` in the witness enforcer. -/
theorem enfW_permissions :
    casbin_get_subject_permissions enfW (str "u:alice") true
      = {casbin_permission_encode [str "m", str "admin:page"]} := by
  simp [casbin_get_subject_permissions, enfW]

/-- Full option tree of the witness group: the page node for `"m"` with
its single list-action child. -/
theorem groupW_full_tree :
    get_admin_action_options groupW
      = [OptNode.mk (str "M") (casbin_permission_encode [str "m", str "admin:page"]) none
          (some [OptNode.mk (str "查看列表")
            (casbin_permission_encode [str "m", str "admin:list"]) none none])] := by
  simp [groupW, get_admin_action_options, admin_page_options, action_option_nodes,
    sort_options_desc, insert_sorted_desc]

/-- In the witness scenario the cached tree after Alice's call has lost
the list-action child of the surviving page node. -/
theorem groupW_mutated_tree :
    mutate_options predW (get_admin_action_options groupW)
      = [OptNode.mk (str "M") (casbin_permission_encode [str "m", str "admin:page"]) none
          (some [])] := by
  have hpage : predW (OptNode.mk (str "M")
      (casbin_permission_encode [str "m", str "admin:page"]) none
      (some [OptNode.mk (str "查看列表")
        (casbin_permission_encode [str "m", str "admin:list"]) none none])) = true := by
    simp [predW, enfW_permissions]
  have hlist : predW (OptNode.mk (str "查看列表")
      (casbin_permission_encode [str "m", str "admin:list"]) none none) = false := by
    simp only [predW, enfW_permissions, OptNode.value_mk, Finset.mem_singleton,
      decide_eq_false_iff_not]
    decide
  rw [groupW_full_tree]
  simp [mutate_options, filter_options, hpage, hlist]

/-- C10 witness: in the concrete scenario, the root subject's call right
after Alice's call returns the mutated cached tree, and that tree differs
from the full tree (the page node's children count dropped from one to
zero). -/
theorem C10_witness :
    (get_admin_action_options_by_subject_cached enfW (str "u:" ++ SystemUserEnum.ROOT)
        groupW (get_admin_action_options_by_subject_cached enfW (str "u:alice") groupW
          none).2).1
      = mutate_options predW (get_admin_action_options groupW) ∧
    (mutate_options predW (get_admin_action_options groupW)).map
        (fun o => (o.children.getD []).length)
      ≠ (get_admin_action_options groupW).map (fun o => (o.children.getD []).length) := by
  constructor
  · exact (C10_filter_mutates_cached_tree enfW enfW (str "u:alice") groupW (by decide)).2
  · rw [groupW_mutated_tree, groupW_full_tree]
    simp
